import Mathlib

/-!
Verification of the hdltree VHDL front-end.

This file gives a shallow embedding of the parts of the source that the
checked properties are about:

* `src/hdltree/VhdlParseTreeTransformers.py` — the ambiguity shaper
  (`MakeAmbigUnique` with its `_ambig`, `function_call` and
  `physical_literal` handlers, plus `is_deleteable` / `get_unique`) over a
  model of lark parse trees, and the `AddCstParent` parent-setting pass
  over a model of typed CST nodes;
* `src/hdltree/Analyzer.py` — the project model (`Library`, `Module`,
  `DeclaredPackage`, `InstancedPackage`, `Project`) with `add_cst`,
  `add_library`, `get_library`, `get_module`, `get_package`.

Python exceptions are modelled with `Except`; mutation of state reachable
from a `Library` is modelled by explicit state passing in source order, so
that whether a raise can leave partial mutations behind is visible in the
embedding.
-/

namespace Hdltree

/-! ## Model of lark parse trees (forest nodes)

A lark tree is either a rule node (`data` plus ordered children) or a
terminal token (string value plus a source position).  The shaper marks
nodes with a `to_delete` attribute; we carry it as the `toDelete` flag.
lark's structural equality (`Tree.__eq__` / `Token.__eq__`) ignores both
the attribute and token positions, so equality used by the shaper is the
separate function `lteq` below, not Lean's `=`. -/

inductive LTree where
  | node (data : String) (toDelete : Bool) (children : List LTree)
  | token (value : String) (pos : Nat)
deriving Repr

def LTree.isNode : LTree → Bool
  | .node .. => true
  | .token .. => false

mutual
/-- lark structural equality: a `Tree` equals a `Tree` when the rule names
and the children agree (attributes such as `to_delete` are not compared);
a `Token` equals a `Token` when the string values agree (source positions
are not compared); a `Tree` never equals a `Token`. -/
def lteq : LTree → LTree → Bool
  | .node d1 _ cs1, .node d2 _ cs2 => d1 == d2 && lteqs cs1 cs2
  | .token v1 _, .token v2 _ => v1 == v2
  | _, _ => false

def lteqs : List LTree → List LTree → Bool
  | [], [] => true
  | a :: as, b :: bs => lteq a b && lteqs as bs
  | _, _ => false
end

mutual
/-- `is_deleteable(tree)`: the node carries `to_delete`, or some `Tree`
descendant does (tokens are skipped, as in the source). -/
def is_deleteable : LTree → Bool
  | .token _ _ => false
  | .node _ del cs => del || is_deleteableAny cs

def is_deleteableAny : List LTree → Bool
  | [] => false
  | c :: cs => (c.isNode && is_deleteable c) || is_deleteableAny cs
end

/-- Python `c in unique` over a list of trees: membership via `==`,
i.e. `lteq`. -/
def ltmem (c : LTree) (l : List LTree) : Bool := l.any (fun u => lteq c u)

/-- `get_unique(children)` accumulator loop: keep `c` when it is not
already present (by `lteq`) and not deleteable, preserving order. -/
def get_uniqueAux : List LTree → List LTree → List LTree
  | [], unique => unique
  | c :: cs, unique =>
    if ltmem c unique then get_uniqueAux cs unique
    else if is_deleteable c then get_uniqueAux cs unique
    else get_uniqueAux cs (unique ++ [c])

def get_unique (children : List LTree) : List LTree := get_uniqueAux children []

/-- `MakeAmbigUnique._ambig`: `none` models `Discard`.  A sole survivor is
spliced as `Tree(unique[0].data, unique[0].children)` (a fresh tree, so no
`to_delete` attribute); taking `.data` of a `Token` would raise, which the
`Except` layer records. -/
def ambig_handler (cs : List LTree) : Except String (Option LTree) :=
  match get_unique cs with
  | [] => .ok none
  | [u] =>
    match u with
    | .node d _ ucs => .ok (some (.node d false ucs))
    | .token _ _ => .error "AttributeError: Token has no attribute data"
  | us => .ok (some (.node "_ambig" false us))

mutual
/-- The `while isinstance(children[0], Tree): children = children[0].children`
loop of `MakeAmbigUnique.function_call`, followed by `children[0].value`.
An empty child list raises `IndexError`. -/
def firstLeafValue : List LTree → Except String String
  | [] => .error "IndexError"
  | c :: _ => drillLeaf c

def drillLeaf : LTree → Except String String
  | .token v _ => .ok v
  | .node _ _ cs => firstLeafValue cs
end

/-- The known-function list of `MakeAmbigUnique.function_call` — it is the
empty literal `functions = []` in the source. -/
def known_functions : List String := []

/-- `MakeAmbigUnique.function_call`: drill to the leading token of the
name; when that name is not in `known_functions` (which is always, the
list being empty) set `to_delete` on the tree; either way return the
tree. -/
def function_call_handler : LTree → Except String LTree
  | .token _ _ => .error "handler applied to a token"
  | .node d del cs =>
    match firstLeafValue cs with
    | .error e => .error e
    | .ok name =>
      if known_functions.contains name then .ok (.node d del cs)
      else .ok (.node d true cs)

/-- The closed unit list of `MakeAmbigUnique.physical_literal`. -/
def time_units : List String := ["fs", "ps", "ns", "us", "ms", "sec", "min", "hr"]

/-- After the one-step drill (`if isinstance(unit, Tree): unit = unit.children[0]`),
`unit not in units`: a token compares by string value, while a remaining
`Tree` never equals a string. -/
def unitMatches : LTree → Bool
  | .token v _ => time_units.contains v
  | .node .. => false

/-- `MakeAmbigUnique.physical_literal`: read `children[1]`, drill one level
when it is a tree, and `Discard` (`none`) the literal when the unit is not
a recognised time unit; keep it unchanged otherwise.  Missing children
raise `IndexError`. -/
def physical_literal_handler : LTree → Except String (Option LTree)
  | .token _ _ => .error "handler applied to a token"
  | .node d del cs =>
    match cs.get? 1 with
    | none => .error "IndexError"
    | some u =>
      match u with
      | .node _ _ ucs =>
        match ucs.get? 0 with
        | none => .error "IndexError"
        | some u2 =>
          if unitMatches u2 then .ok (some (.node d del cs)) else .ok none
      | .token v _ =>
        if time_units.contains v then .ok (some (.node d del cs)) else .ok none

mutual
/-- Bottom-up `Transformer.transform` of `MakeAmbigUnique`: children are
transformed first (`Discard` results dropped), the rule is rebuilt as a
fresh tree (lark rebuilds nodes, so input attributes are not kept), and
the handler for `_ambig` / `function_call` / `physical_literal` is applied
when the rule name matches. -/
def makeAmbigUnique : LTree → Except String (Option LTree)
  | .token v p => .ok (some (.token v p))
  | .node d _ cs =>
    match makeAmbigUniqueList cs with
    | .error e => .error e
    | .ok cs' =>
      if d == "_ambig" then ambig_handler cs'
      else if d == "function_call" then
        match function_call_handler (.node d false cs') with
        | .error e => .error e
        | .ok t => .ok (some t)
      else if d == "physical_literal" then physical_literal_handler (.node d false cs')
      else .ok (some (.node d false cs'))

def makeAmbigUniqueList : List LTree → Except String (List LTree)
  | [] => .ok []
  | c :: cs =>
    match makeAmbigUnique c with
    | .error e => .error e
    | .ok none => makeAmbigUniqueList cs
    | .ok (some c') =>
      match makeAmbigUniqueList cs with
      | .error e => .error e
      | .ok cs' => .ok (c' :: cs')
end

/-- Modelled from the spec: the surfacing of a shaper rejection as a parse
failure.  The lark engine and the driver that turn a discarded derivation
into a reported failure are not under src/; per spec §4.2 an `_ambig`
emptied by the shaper is "surfaced as a parse failure", so an input whose
modelled forest is discarded (or whose transform raises) counts as
rejected. -/
def rejectedByShaper (t : LTree) : Prop :=
  makeAmbigUnique t = .ok none ∨ ∃ e, makeAmbigUnique t = .error e

/-! ## Model of typed CST nodes and the parent-setting pass

`_VhdlCstNode` (VhdlCstTransformer.py) is a dataclass with ordered fields;
a field value is a child node, a terminal token, `None`, or a list of
values.  The `children` property returns the ordered concatenation of all
field values with list fields spliced in place (tokens and `None` entries
included).  `AddCstParent` (VhdlParseTreeTransformers.py) visits every
node and sets `child.parent = tree` for each `Tree`-valued entry of
`tree.children`. -/

/-- A typed CST value: a node (`kind` plus ordered field values), a
list-valued field (whose elements `children` splices in place), a
terminal token, or `None` (absent optional field).  A `fieldList` occurs
only as a direct field value of a node in trees built from the source's
dataclasses. -/
inductive CTree where
  | node (kind : String) (fieldVals : List CTree)
  | fieldList (vs : List CTree)
  | tok (v : String)
  | nil
deriving Repr

def CTree.isCNode : CTree → Bool
  | .node .. => true
  | _ => false

mutual
/-- Size measure used to state that a child is strictly below its parent
(so the parent chain is acyclic and never reaches back to the root). -/
def csize : CTree → Nat
  | .node _ fs => 1 + csizeList fs
  | .fieldList vs => 1 + csizeList vs
  | .tok _ => 1
  | .nil => 1

def csizeList : List CTree → Nat
  | [] => 0
  | v :: vs => csize v + csizeList vs
end

/-- The flattening step of the `children` property: a plain field
contributes its value (tokens and `None` included), a list field
contributes its elements in order. -/
def flattenVals : List CTree → List CTree
  | [] => []
  | .fieldList vs :: fs => vs ++ flattenVals fs
  | v :: fs => v :: flattenVals fs

/-- `_VhdlCstNode.children`: ordered concatenation of all field values,
flattening sequences (the source's single-list-field shortcut returns
the same list). -/
def cstChildren : CTree → List CTree
  | .node _ fs => flattenVals fs
  | _ => []

/-- The `Tree`-valued entries of `children`, in order — the children
that `AddCstParent` links back to their parent. -/
def nodeChildren (t : CTree) : List CTree :=
  (cstChildren t).filter CTree.isCNode

mutual
/-- One level of the `AddCstParent` visit over the field values of a
parent node: for every `Tree`-valued entry of the parent's `children` a
pair `(child, parent)` is recorded (the pass executes `child.parent =
parent`), and the visit recurses into that child's own fields. -/
def addCstParentFields (par : CTree) : List CTree → List (CTree × CTree)
  | [] => []
  | f :: fs => addCstParentField par f ++ addCstParentFields par fs
termination_by structural l => l

def addCstParentField (par : CTree) : CTree → List (CTree × CTree)
  | .node k fs => (.node k fs, par) :: addCstParentFields (.node k fs) fs
  | .fieldList vs => addCstParentElems par vs
  | .tok _ => []
  | .nil => []
termination_by structural t => t

def addCstParentElems (par : CTree) : List CTree → List (CTree × CTree)
  | [] => []
  | v :: vs => addCstParentElem par v ++ addCstParentElems par vs
termination_by structural l => l

def addCstParentElem (par : CTree) : CTree → List (CTree × CTree)
  | .node k fs => (.node k fs, par) :: addCstParentFields (.node k fs) fs
  | _ => []
termination_by structural t => t
end

/-- `AddCstParent().visit(t)` as the list of parent assignments it
makes; only nodes are visited, and only `Tree`-valued children are
assigned a parent. -/
def addCstParent : CTree → List (CTree × CTree)
  | .node k fs => addCstParentFields (.node k fs) fs
  | _ => []

/-- Characterisation of the pairs the parent pass makes below a parent
with child list `kids`: either a node child of `kids` assigned `par`
itself, or a pair made deeper inside such a child. -/
def parentSpec (par : CTree) (kids : List CTree) (c q : CTree) : Prop :=
  (q = par ∧ c.isCNode = true ∧ c ∈ kids) ∨ (∃ c0 ∈ kids, (c, q) ∈ addCstParent c0)

/-- The occurrence of a node at a path of child indices (indices into
`nodeChildren`), used to state parent consistency for node occurrences
rather than node values. -/
def subtreeAt : CTree → List Nat → Option CTree
  | t, [] => some t
  | t, i :: p =>
    match (nodeChildren t).get? i with
    | none => none
    | some c => subtreeAt c p

/-! ## Model of the project model (Analyzer.py)

`Library.add_cst` walks the design units of a `DesignFile` and folds each
library unit into the library's `modules` / `packages` sequences.  The
CST input is modelled by the fields `add_cst` actually reads.  Python
exceptions are `Except` errors; since an exception aborts `add_cst` with
whatever mutations were already applied, each unit step returns the
library state alongside the `Except`, with state writes placed exactly
where the source mutates state reachable from the library (fresh
`Module` / `DeclaredPackage` objects are locals until appended, so
partial work on them dies with the raise and is not part of the library
state). -/

/-- Python `str.lower()` restricted to ASCII case folding (identifiers
are ASCII here; `Char.toLower` lowercases exactly `A`–`Z`). -/
def pyLower (s : String) : String := String.mk (s.toList.map Char.toLower)

/-- Python `str.split(".")` (the separator is nonempty, so this is plain
splitting on each dot; an input without dots yields a one-element
list). -/
def pySplitDotAux : List Char → List Char → List String
  | [], acc => [String.mk acc.reverse]
  | c :: rest, acc =>
    if c = '.' then String.mk acc.reverse :: pySplitDotAux rest []
    else pySplitDotAux rest (c :: acc)

def pySplitDot (s : String) : List String := pySplitDotAux s.toList []

/-- `InterfaceNet` / `InterfaceType` / `InterfaceSubprogram` /
`InterfacePackage` from Analyzer.py. -/
inductive InterfaceElement where
  | net (name access ty : String) (default : Option String) (dir : String)
  | itype (name : String)
  | isubprogram (name : String) (default : Option String)
  | ipackage (name baseName : String)
deriving DecidableEq, Repr

/-- A generic-clause element as read by `Module.add_entity` /
`DeclaredPackage.add_package` (`param.generic_declaration`).  `badDecl`
stands for any other CST class at this position, which the source rejects
with `ValueError("bad ... generic type ...")`. -/
inductive GenericDecl where
  | constDecl (ids : List String) (subtype : String) (default : Option String)
  | typeDecl (id : String)
  | subprogDecl (spec : String) (default : Option String)
  | pkgDecl (id : String) (uninstName : String)
  | badDecl (kindName : String)
deriving DecidableEq, Repr

/-- A port-clause element as read by `Module.add_entity`
(`port.port_declaration`); anything but an `InterfaceSignalDeclaration`
raises `ValueError("bad entity port type ...")`. -/
inductive PortDecl where
  | signal (ids : List String) (subtype : String) (default : Option String) (mode : String)
  | badPort (kindName : String)
deriving DecidableEq, Repr

/-- A package declarative item as read by `DeclaredPackage.add_package`:
subprogram declarations and instantiations contribute a `Subprogram`
entry; every other item kind is silently skipped. -/
inductive PkgItem where
  | subprogramDecl (designator : String)
  | subprogramInst (id : String)
  | otherItem
deriving DecidableEq, Repr

/-- A library unit as dispatched by `Library.add_cst`
(`du.library_unit.unit.children[0]`), carrying the fields each branch
reads.  Context clauses are omitted: `add_context` is a `pass` in the
source.  `packageInst`'s generic map entries are
`(m.formal, str(m.actual))` pairs with the formal absent for positional
association. -/
inductive LibraryUnitC where
  | entity (id : String) (generics : List GenericDecl) (ports : List PortDecl)
  | architecture (id : String) (entityName : String)
  | packageDecl (id : String) (generics : List GenericDecl) (items : List PkgItem)
  | packageBody (simpleName : String)
  | packageInst (id : String) (uninstName : String)
      (genericMap : List (Option String × String))
  | unsupported (kindName : String)
deriving DecidableEq, Repr

/-- A parsed design file as consumed by `Library.add_cst`: the file path
and the library units in order. -/
structure DesignFileC where
  path : String
  units : List LibraryUnitC
deriving DecidableEq, Repr

/-- `Module` (Analyzer.py); `files` is a Python set of `File(path)`
objects hashing and comparing by path, modelled as an insertion-ordered
duplicate-free list of paths.  `context`, `declarations` and `statements`
are never written by `add_cst` and are omitted. -/
structure Module where
  name : String
  files : List String
  arch_name : String
  parameters : List InterfaceElement
  ports : List InterfaceElement
deriving DecidableEq, Repr

/-- `DeclaredPackage` (Analyzer.py); `components`, `constants` and
`types` are never written by `add_cst` and are omitted. -/
structure DeclaredPackage where
  name : String
  files : List String
  has_body : Bool
  parameters : List InterfaceElement
  subprograms : List String
deriving DecidableEq, Repr

/-- A generic-map formal: `str(m.formal)` when present, the positional
index otherwise. -/
inductive Formal where
  | named (s : String)
  | positional (i : Nat)
deriving DecidableEq, Repr

/-- `Package = DeclaredPackage | InstancedPackage`.  An
`InstancedPackage` carries `name`, `files`, the `declaration` reference
(whatever `get_package` returned — the source does not check that it is a
declared package) and the ordered generic `mapping`.  The Python
reference is modelled as the value at the time of instantiation. -/
inductive Package where
  | declared (p : DeclaredPackage)
  | instanced (name : String) (files : List String) (declaration : Package)
      (mapping : List (Formal × String))
deriving DecidableEq, Repr

def Package.name : Package → String
  | .declared p => p.name
  | .instanced n _ _ _ => n

/-- `Library` (Analyzer.py). -/
structure Library where
  name : String
  packages : List Package
  modules : List Module
deriving DecidableEq, Repr

/-- `Project.libraries` (the parser handle and the InitVar flags play no
part in the claims). -/
structure Project where
  libraries : List Library
deriving DecidableEq, Repr

/-- The errors `add_cst`, `add_library` and `get_library` can raise.  The
source raises `ValueError` with a message; the constructors keep the
distinguishing data.  `unpackValueError n` is the `ValueError` raised by
unpacking `pkgname.split(".")` (of length `n ≠ 2`) into two variables;
`attrError` models the `AttributeError` of reading `has_body` off an
`InstancedPackage`. -/
inductive ProjErr where
  | entityExists (name : String)
  | noSuchEntity (name : String)
  | archExists (entity arch : String)
  | packageExists (name : String)
  | noSuchPackage (name : String)
  | bodyExists (name : String)
  | badGenericKind (kindName : String)
  | badPortKind (kindName : String)
  | unpackValueError (parts : Nat)
  | attrError (msg : String)
  | duplicateLibrary (name : String)
  | unknownLibrary (name : String)
deriving DecidableEq, Repr

/-- `Library.get_module`: first module whose lowercased name matches. -/
def get_module (lib : Library) (name : String) : Option Module :=
  lib.modules.find? (fun m => pyLower m.name == pyLower name)

/-- `Library.get_package`: first package whose lowercased name
matches. -/
def get_package (lib : Library) (name : String) : Option Package :=
  lib.packages.find? (fun p => pyLower p.name == pyLower name)

/-- Replace the first module whose lowercased name matches — the model of
mutating the object `get_module` returned. -/
def updateFirstModule (ms : List Module) (name : String) (f : Module → Module) :
    List Module :=
  match ms with
  | [] => []
  | m :: rest =>
    if pyLower m.name == pyLower name then f m :: rest
    else m :: updateFirstModule rest name f

/-- Replace the first package whose lowercased name matches — the model
of mutating the object `get_package` returned. -/
def updateFirstPackage (ps : List Package) (name : String) (f : Package → Package) :
    List Package :=
  match ps with
  | [] => []
  | p :: rest =>
    if pyLower p.name == pyLower name then f p :: rest
    else p :: updateFirstPackage rest name f

/-- Python `set.add` on a file set: membership is by path. -/
def fileAdd (fs : List String) (f : String) : List String :=
  if f ∈ fs then fs else fs ++ [f]

/-- One `InterfaceConstantDeclaration` fans out over its
`identifier_list`, each entry sharing type and default. -/
def constNets (ids : List String) (subtype : String) (default : Option String) :
    List InterfaceElement :=
  ids.map (fun i => .net i "constant" subtype default "in")

/-- One step of the generic-extraction loop shared by `add_entity` and
`add_package`. -/
def addGeneric (params : List InterfaceElement) (g : GenericDecl) :
    Except ProjErr (List InterfaceElement) :=
  match g with
  | .constDecl ids st d => .ok (params ++ constNets ids st d)
  | .typeDecl i => .ok (params ++ [.itype i])
  | .subprogDecl s d => .ok (params ++ [.isubprogram s d])
  | .pkgDecl i u => .ok (params ++ [.ipackage i u])
  | .badDecl k => .error (.badGenericKind k)

def extractGenerics (gs : List GenericDecl) : Except ProjErr (List InterfaceElement) :=
  gs.foldlM addGeneric []

/-- One step of the port-extraction loop of `add_entity`. -/
def addPortDecl (ps : List InterfaceElement) (p : PortDecl) :
    Except ProjErr (List InterfaceElement) :=
  match p with
  | .signal ids st d mode => .ok (ps ++ ids.map (fun i => .net i "signal" st d mode))
  | .badPort k => .error (.badPortKind k)

def extractPorts (ps : List PortDecl) : Except ProjErr (List InterfaceElement) :=
  ps.foldlM addPortDecl []

/-- The declarative-part walk of `add_package`: keep subprogram
declarations and instantiations, skip the rest. -/
def pkgSubprograms (items : List PkgItem) : List String :=
  items.filterMap (fun it =>
    match it with
    | .subprogramDecl d => some d
    | .subprogramInst i => some i
    | .otherItem => none)

/-- The generic-map build of the `PackageInstantiationDeclaration`
branch: `enumerate` the association list; a present formal is kept by
name, an absent one becomes the positional index. -/
def mkMapping (gm : List (Option String × String)) : List (Formal × String) :=
  gm.enum.map (fun e =>
    match e.2.1 with
    | some f => (Formal.named f, e.2.2)
    | none => (Formal.positional e.1, e.2.2))

/-- One iteration of the `Library.add_cst` loop for a single library
unit, in source order.  The returned library is the state at normal or
exceptional exit of the iteration; errors leave it exactly as passed in
because the source appends fresh objects only after all checks and
mutates found objects only after its checks. -/
def addUnit (lib : Library) (path : String) (lu : LibraryUnitC) :
    Except ProjErr Unit × Library :=
  match lu with
  | .entity id gs ps =>
    match get_module lib id with
    | some _ => (.error (.entityExists id), lib)
    | none =>
      match extractGenerics gs with
      | .error e => (.error e, lib)
      | .ok params =>
        match extractPorts ps with
        | .error e => (.error e, lib)
        | .ok prts =>
          (.ok (), { lib with modules := lib.modules ++ [⟨id, [path], "", params, prts⟩] })
  | .architecture archId entName =>
    match get_module lib entName with
    | none => (.error (.noSuchEntity entName), lib)
    | some m =>
      if m.arch_name ≠ "" then (.error (.archExists entName m.arch_name), lib)
      else
        -- `add_context` is a no-op; `add_arch` sets `arch_name` only —
        -- the source does not touch `files` in this branch.
        (.ok (),
          { lib with
            modules := updateFirstModule lib.modules entName
              (fun m0 => { m0 with arch_name := archId }) })
  | .packageDecl id gs items =>
    match get_package lib id with
    | some _ => (.error (.packageExists id), lib)
    | none =>
      match extractGenerics gs with
      | .error e => (.error e, lib)
      | .ok params =>
        (.ok (),
          { lib with
            packages := lib.packages ++
              [.declared ⟨id, [path], false, params, pkgSubprograms items⟩] })
  | .packageBody sname =>
    match get_package lib sname with
    | none => (.error (.noSuchPackage sname), lib)
    | some pk =>
      match pk with
      | .instanced _ _ _ _ => (.error (.attrError "has_body"), lib)
      | .declared d =>
        if d.has_body then (.error (.bodyExists sname), lib)
        else
          (.ok (),
            { lib with
              packages := updateFirstPackage lib.packages sname
                (fun p0 =>
                  match p0 with
                  | .declared d0 =>
                    .declared { d0 with has_body := true, files := fileAdd d0.files path }
                  | other => other) })
  | .packageInst id uninst gm =>
    match pySplitDot uninst with
    | [_baselib, basepkg] =>
      match get_package lib basepkg with
      | none => (.error (.noSuchPackage uninst), lib)
      | some pk =>
        (.ok (),
          { lib with
            packages := lib.packages ++ [.instanced id [path] pk (mkMapping gm)] })
    | parts => (.error (.unpackValueError parts.length), lib)
  | .unsupported _ => (.ok (), lib)

/-- The `Library.add_cst` loop over the design units in order; an
exception stops the walk and propagates, keeping the state reached so
far. -/
def add_cst_units (lib : Library) (path : String) :
    List LibraryUnitC → Except ProjErr Unit × Library
  | [] => (.ok (), lib)
  | lu :: rest =>
    match addUnit lib path lu with
    | (.ok (), lib') => add_cst_units lib' path rest
    | err => err

/-- `Library.add_cst`.  (The `new_mods` return value plays no part in
the claims.) -/
def add_cst (lib : Library) (df : DesignFileC) : Except ProjErr Unit × Library :=
  add_cst_units lib df.path df.units

/-- `Project.add_library`: reject a case-insensitive duplicate, else
append a fresh library. -/
def add_library (proj : Project) (name : String) : Except ProjErr Project :=
  if proj.libraries.any (fun l => pyLower l.name == pyLower name) then
    .error (.duplicateLibrary name)
  else
    .ok { proj with libraries := proj.libraries ++ [⟨name, [], []⟩] }

/-- `Project.get_library`: first case-insensitive match, else
`ValueError`. -/
def get_library (proj : Project) (name : String) : Except ProjErr Library :=
  match proj.libraries.find? (fun l => pyLower l.name == pyLower name) with
  | some l => .ok l
  | none => .error (.unknownLibrary name)

/-! ## Helper lemmas -/

theorem get_module_append_new (lib : Library) (nm s : String) (m : Module)
    (hs : pyLower s = pyLower nm) (hname : m.name = nm)
    (hnone : get_module lib nm = none) :
    get_module { lib with modules := lib.modules ++ [m] } s = some m := by
  unfold get_module at *
  rw [List.find?_append]
  simp only [hs]
  rw [hnone]
  simp [List.find?, hname]

theorem get_package_append_new (lib : Library) (nm s : String) (p : Package)
    (hs : pyLower s = pyLower nm) (hname : p.name = nm)
    (hnone : get_package lib nm = none) :
    get_package { lib with packages := lib.packages ++ [p] } s = some p := by
  unfold get_package at *
  rw [List.find?_append]
  simp only [hs]
  rw [hnone]
  simp [List.find?, hname]

/-- Unfolding of the `ArchitectureBody` branch of `addUnit`. -/
theorem addUnit_architecture (lib : Library) (path archId entName : String) :
    addUnit lib path (.architecture archId entName) =
      match get_module lib entName with
      | none => (.error (.noSuchEntity entName), lib)
      | some m =>
        if m.arch_name ≠ "" then (.error (.archExists entName m.arch_name), lib)
        else
          (.ok (),
            { lib with
              modules := updateFirstModule lib.modules entName
                (fun m0 => { m0 with arch_name := archId }) }) := rfl

/-- Unfolding of the `PackageInstantiationDeclaration` branch of
`addUnit`. -/
theorem addUnit_packageInst (lib : Library) (path id uninst : String)
    (gm : List (Option String × String)) :
    addUnit lib path (.packageInst id uninst gm) =
      match pySplitDot uninst with
      | [_baselib, basepkg] =>
        (match get_package lib basepkg with
         | none => (.error (.noSuchPackage uninst), lib)
         | some pk =>
           (.ok (), { lib with
              packages := lib.packages ++ [.instanced id [path] pk (mkMapping gm)] }))
      | parts => (.error (.unpackValueError parts.length), lib) := rfl

/-- Each branch of `addUnit` either succeeds or leaves the library
untouched: every raise in the source happens before the branch's first
mutation of state reachable from the library. -/
theorem addUnit_ok_or_unchanged (lib : Library) (path : String) (lu : LibraryUnitC) :
    (addUnit lib path lu).1 = .ok () ∨ (addUnit lib path lu).2 = lib := by
  cases lu <;> simp only [addUnit] <;> (repeat' split) <;> simp

theorem csize_pos : ∀ t : CTree, 1 ≤ csize t := by
  intro t
  cases t <;> simp [csize]

theorem csize_le_of_mem :
    ∀ (vs : List CTree) (v : CTree), v ∈ vs → csize v ≤ csizeList vs := by
  intro vs
  induction vs with
  | nil => intro v h; exact absurd h (List.not_mem_nil v)
  | cons w ws ih =>
    intro v h
    rcases List.mem_cons.mp h with h' | h'
    · subst h'; simp [csizeList]
    · have := ih v h'
      simp [csizeList]
      omega

theorem csize_le_of_mem_flatten :
    ∀ (fs : List CTree) (v : CTree), v ∈ flattenVals fs → csize v ≤ csizeList fs := by
  intro fs
  induction fs with
  | nil => intro v h; simp [flattenVals] at h
  | cons f fs ih =>
    intro v h
    cases f with
    | fieldList vs =>
      rw [show flattenVals (.fieldList vs :: fs) = vs ++ flattenVals fs from rfl] at h
      rcases List.mem_append.mp h with h' | h'
      · have := csize_le_of_mem vs v h'
        simp [csizeList, csize]
        omega
      · have := ih v h'
        simp [csizeList]
        omega
    | node k nfs =>
      rw [show flattenVals (.node k nfs :: fs) = .node k nfs :: flattenVals fs from rfl] at h
      rcases List.mem_cons.mp h with h' | h'
      · subst h'; simp [csizeList]
      · have := ih v h'
        simp [csizeList]
        omega
    | tok w =>
      rw [show flattenVals (.tok w :: fs) = .tok w :: flattenVals fs from rfl] at h
      rcases List.mem_cons.mp h with h' | h'
      · subst h'; simp [csizeList]
      · have := ih v h'
        simp [csizeList]
        omega
    | nil =>
      rw [show flattenVals (.nil :: fs) = .nil :: flattenVals fs from rfl] at h
      rcases List.mem_cons.mp h with h' | h'
      · subst h'; simp [csizeList]
      · have := ih v h'
        simp [csizeList]
        omega

theorem parentSpec_skip (par v : CTree) (vs : List CTree) (c q : CTree)
    (hnode : v.isCNode = false) (hemp : addCstParent v = []) :
    parentSpec par (v :: vs) c q ↔ parentSpec par vs c q := by
  unfold parentSpec
  constructor
  · rintro (⟨hq, hcn, hcv⟩ | ⟨c0, hc0, hd⟩)
    · rcases List.mem_cons.mp hcv with rfl | h'
      · simp [hnode] at hcn
      · exact .inl ⟨hq, hcn, h'⟩
    · rcases List.mem_cons.mp hc0 with rfl | h'
      · rw [hemp] at hd; exact absurd hd (List.not_mem_nil _)
      · exact .inr ⟨c0, h', hd⟩
  · rintro (⟨hq, hcn, hcv⟩ | ⟨c0, hc0, hd⟩)
    · exact .inl ⟨hq, hcn, List.mem_cons_of_mem _ hcv⟩
    · exact .inr ⟨c0, List.mem_cons_of_mem _ hc0, hd⟩

theorem parentSpec_node (par : CTree) (k : String) (nfs : List CTree)
    (rest : List (CTree × CTree)) (vs : List CTree) (c q : CTree)
    (hrest : ((c, q) ∈ rest) ↔ parentSpec par vs c q) :
    ((c, q) ∈ ((CTree.node k nfs, par) :: addCstParentFields (.node k nfs) nfs) ++ rest) ↔
      parentSpec par (.node k nfs :: vs) c q := by
  unfold parentSpec
  constructor
  · intro h
    rcases List.mem_append.mp h with h1 | h2
    · rcases List.mem_cons.mp h1 with heq | hdeep
      · have hc : c = .node k nfs := congrArg Prod.fst heq
        have hq : q = par := congrArg Prod.snd heq
        refine .inl ⟨hq, ?_, ?_⟩
        · rw [hc]; rfl
        · rw [hc]; exact List.mem_cons_self _ _
      · exact .inr ⟨.node k nfs, List.mem_cons_self _ _, hdeep⟩
    · rcases hrest.mp h2 with ⟨hq, hcn, hcv⟩ | ⟨c0, hc0, hd⟩
      · exact .inl ⟨hq, hcn, List.mem_cons_of_mem _ hcv⟩
      · exact .inr ⟨c0, List.mem_cons_of_mem _ hc0, hd⟩
  · rintro (⟨hq, hcn, hcv⟩ | ⟨c0, hc0, hd⟩)
    · rcases List.mem_cons.mp hcv with rfl | hcv'
      · subst hq
        exact List.mem_append.mpr (.inl (List.mem_cons_self _ _))
      · exact List.mem_append.mpr (.inr (hrest.mpr (.inl ⟨hq, hcn, hcv'⟩)))
    · rcases List.mem_cons.mp hc0 with rfl | hc0'
      · exact List.mem_append.mpr (.inl (List.mem_cons_of_mem _ hd))
      · exact List.mem_append.mpr (.inr (hrest.mpr (.inr ⟨c0, hc0', hd⟩)))

theorem parentSpec_append (par : CTree) (k1 k2 : List CTree) (c q : CTree) :
    parentSpec par (k1 ++ k2) c q ↔ parentSpec par k1 c q ∨ parentSpec par k2 c q := by
  unfold parentSpec
  simp only [List.mem_append]
  constructor
  · rintro (⟨hq, hcn, h | h⟩ | ⟨c0, h | h, hd⟩)
    · exact .inl (.inl ⟨hq, hcn, h⟩)
    · exact .inr (.inl ⟨hq, hcn, h⟩)
    · exact .inl (.inr ⟨c0, h, hd⟩)
    · exact .inr (.inr ⟨c0, h, hd⟩)
  · rintro ((⟨hq, hcn, h⟩ | ⟨c0, h, hd⟩) | (⟨hq, hcn, h⟩ | ⟨c0, h, hd⟩))
    · exact .inl ⟨hq, hcn, .inl h⟩
    · exact .inr ⟨c0, .inl h, hd⟩
    · exact .inl ⟨hq, hcn, .inr h⟩
    · exact .inr ⟨c0, .inr h, hd⟩

/-- Membership in the element walk of a list field: either a pair made
at this level (a node element assigned `par`) or a pair made deeper
inside a node element. -/
theorem mem_elems_iff :
    ∀ (par : CTree) (vs : List CTree) (c q : CTree),
      (c, q) ∈ addCstParentElems par vs ↔ parentSpec par vs c q := by
  intro par vs
  induction vs with
  | nil =>
    intro c q
    rw [show addCstParentElems par [] = [] from rfl]
    unfold parentSpec
    simp
  | cons v vs ih =>
    intro c q
    cases v with
    | node k nfs =>
      rw [show addCstParentElems par (.node k nfs :: vs) =
          ((CTree.node k nfs, par) :: addCstParentFields (.node k nfs) nfs) ++
            addCstParentElems par vs from rfl]
      exact parentSpec_node par k nfs _ vs c q (ih c q)
    | fieldList vs2 =>
      rw [show addCstParentElems par (.fieldList vs2 :: vs) = addCstParentElems par vs
          from rfl]
      exact (ih c q).trans (parentSpec_skip par (.fieldList vs2) vs c q rfl rfl).symm
    | tok w =>
      rw [show addCstParentElems par (.tok w :: vs) = addCstParentElems par vs from rfl]
      exact (ih c q).trans (parentSpec_skip par (.tok w) vs c q rfl rfl).symm
    | nil =>
      rw [show addCstParentElems par (.nil :: vs) = addCstParentElems par vs from rfl]
      exact (ih c q).trans (parentSpec_skip par .nil vs c q rfl rfl).symm

/-- Membership in the field walk of a node: either a node entry of the
flattened children assigned `par` itself, or a pair made deeper inside
such an entry. -/
theorem mem_fields_iff :
    ∀ (par : CTree) (fs : List CTree) (c q : CTree),
      (c, q) ∈ addCstParentFields par fs ↔ parentSpec par (flattenVals fs) c q := by
  intro par fs
  induction fs with
  | nil =>
    intro c q
    rw [show addCstParentFields par [] = [] from rfl,
      show flattenVals [] = [] from rfl]
    unfold parentSpec
    simp
  | cons f fs ih =>
    intro c q
    cases f with
    | node k nfs =>
      rw [show addCstParentFields par (.node k nfs :: fs) =
          ((CTree.node k nfs, par) :: addCstParentFields (.node k nfs) nfs) ++
            addCstParentFields par fs from rfl,
        show flattenVals (.node k nfs :: fs) = .node k nfs :: flattenVals fs from rfl]
      exact parentSpec_node par k nfs _ _ c q (ih c q)
    | fieldList vs2 =>
      rw [show addCstParentFields par (.fieldList vs2 :: fs) =
          addCstParentElems par vs2 ++ addCstParentFields par fs from rfl,
        show flattenVals (.fieldList vs2 :: fs) = vs2 ++ flattenVals fs from rfl]
      rw [parentSpec_append]
      constructor
      · intro h
        rcases List.mem_append.mp h with h1 | h2
        · exact .inl ((mem_elems_iff par vs2 c q).mp h1)
        · exact .inr ((ih c q).mp h2)
      · rintro (h | h)
        · exact List.mem_append.mpr (.inl ((mem_elems_iff par vs2 c q).mpr h))
        · exact List.mem_append.mpr (.inr ((ih c q).mpr h))
    | tok w =>
      rw [show addCstParentFields par (.tok w :: fs) = addCstParentFields par fs from rfl,
        show flattenVals (.tok w :: fs) = .tok w :: flattenVals fs from rfl]
      exact (ih c q).trans (parentSpec_skip par (.tok w) (flattenVals fs) c q rfl rfl).symm
    | nil =>
      rw [show addCstParentFields par (.nil :: fs) = addCstParentFields par fs from rfl,
        show flattenVals (.nil :: fs) = .nil :: flattenVals fs from rfl]
      exact (ih c q).trans (parentSpec_skip par .nil (flattenVals fs) c q rfl rfl).symm

/-- Every parent assignment the pass makes is sound: the assigned parent
lists the child among its `children`, and the child is strictly smaller
than both its parent and the visited root. -/
theorem addCstParent_sound :
    ∀ (n : Nat) (t c q : CTree), csize t ≤ n → (c, q) ∈ addCstParent t →
      c ∈ cstChildren q ∧ csize c < csize q ∧ csize c < csize t := by
  intro n
  induction n with
  | zero => intro t c q ht _; have := csize_pos t; omega
  | succ n ih =>
    intro t c q ht h
    cases t with
    | node k fs =>
      rw [show addCstParent (.node k fs) = addCstParentFields (.node k fs) fs from rfl] at h
      have hspec := (mem_fields_iff _ fs c q).mp h
      unfold parentSpec at hspec
      rcases hspec with ⟨hq, _, hmem⟩ | ⟨c0, hc0, hdeep⟩
      · subst hq
        have h1 : csize c ≤ csizeList fs := csize_le_of_mem_flatten fs c hmem
        have h2 : csize (CTree.node k fs) = 1 + csizeList fs := rfl
        exact ⟨by simpa [cstChildren] using hmem, by omega, by omega⟩
      · have h1 : csize c0 ≤ csizeList fs := csize_le_of_mem_flatten fs c0 hc0
        have h2 : csize (CTree.node k fs) = 1 + csizeList fs := rfl
        have h3 := ih c0 c q (by omega) hdeep
        exact ⟨h3.1, h3.2.1, by omega⟩
    | fieldList vs => simp [addCstParent] at h
    | tok v => simp [addCstParent] at h
    | nil => simp [addCstParent] at h

theorem addCstParent_intro_child (t c : CTree) (hc : c.isCNode = true)
    (hmem : c ∈ cstChildren t) : (c, t) ∈ addCstParent t := by
  cases t with
  | node k fs =>
    rw [show addCstParent (.node k fs) = addCstParentFields (.node k fs) fs from rfl]
    exact (mem_fields_iff _ fs c _).mpr
      (.inl ⟨rfl, hc, by simpa [cstChildren] using hmem⟩)
  | fieldList vs => simp [cstChildren] at hmem
  | tok v => simp [cstChildren] at hmem
  | nil => simp [cstChildren] at hmem

theorem addCstParent_deep (t c0 c q : CTree) (h0 : c0 ∈ cstChildren t)
    (h : (c, q) ∈ addCstParent c0) : (c, q) ∈ addCstParent t := by
  cases t with
  | node k fs =>
    rw [show addCstParent (.node k fs) = addCstParentFields (.node k fs) fs from rfl]
    exact (mem_fields_iff _ fs c q).mpr
      (.inr ⟨c0, by simpa [cstChildren] using h0, h⟩)
  | fieldList vs => simp [cstChildren] at h0
  | tok v => simp [cstChildren] at h0
  | nil => simp [cstChildren] at h0

theorem subtreeAt_parent :
    ∀ (p : List Nat) (t c : CTree), subtreeAt t p = some c → p ≠ [] →
      ∃ par, subtreeAt t p.dropLast = some par ∧ (c, par) ∈ addCstParent t := by
  intro p
  induction p with
  | nil => intro t c _ hne; exact absurd rfl hne
  | cons i p ih =>
    intro t c h _
    rw [show subtreeAt t (i :: p) =
        (match (nodeChildren t).get? i with
         | none => none
         | some c' => subtreeAt c' p) from rfl] at h
    cases hg : (nodeChildren t).get? i with
    | none => rw [hg] at h; exact absurd h (by simp)
    | some c0 =>
      rw [hg] at h
      have hc0mem : c0 ∈ nodeChildren t := List.get?_mem hg
      have hc0node : c0.isCNode = true := (List.mem_filter.mp hc0mem).2
      have hc0child : c0 ∈ cstChildren t := (List.mem_filter.mp hc0mem).1
      cases p with
      | nil =>
        have hc : c0 = c := by simpa [subtreeAt] using h
        subst hc
        exact ⟨t, rfl, addCstParent_intro_child t c0 hc0node hc0child⟩
      | cons j p' =>
        obtain ⟨par, hpar, hmem⟩ := ih c0 c h (by simp)
        refine ⟨par, ?_, addCstParent_deep t c0 c par hc0child hmem⟩
        rw [show (i :: j :: p').dropLast = i :: (j :: p').dropLast from rfl]
        rw [show subtreeAt t (i :: (j :: p').dropLast) =
            (match (nodeChildren t).get? i with
             | none => none
             | some c' => subtreeAt c' ((j :: p').dropLast)) from rfl]
        rw [hg]
        exact hpar

theorem addCstParent_not_root (t q : CTree) : (t, q) ∉ addCstParent t := by
  intro h
  have := addCstParent_sound (csize t) t t q le_rfl h
  omega

mutual
theorem lteq_refl : ∀ t, lteq t t = true
  | .node d del cs => by simp [lteq, lteqs_refl cs]
  | .token v p => by simp [lteq]

theorem lteqs_refl : ∀ l, lteqs l l = true
  | [] => by simp [lteqs]
  | a :: as => by simp [lteqs, lteq_refl a, lteqs_refl as]
end

/-- The `get_unique` accumulator only grows, by appending a sublist of
the scanned children. -/
theorem get_uniqueAux_grows :
    ∀ (cs acc : List LTree), ∃ t, get_uniqueAux cs acc = acc ++ t ∧ t.Sublist cs := by
  intro cs
  induction cs with
  | nil => intro acc; exact ⟨[], by simp [get_uniqueAux], List.Sublist.refl []⟩
  | cons c cs ih =>
    intro acc
    simp only [get_uniqueAux]
    split
    · obtain ⟨t, ht, hsub⟩ := ih acc
      exact ⟨t, ht, hsub.cons c⟩
    split
    · obtain ⟨t, ht, hsub⟩ := ih acc
      exact ⟨t, ht, hsub.cons c⟩
    · obtain ⟨t, ht, hsub⟩ := ih (acc ++ [c])
      exact ⟨c :: t, by simpa using ht, hsub.cons₂ c⟩

theorem ltmem_of_ltmem_acc :
    ∀ (cs acc : List LTree) (c : LTree), ltmem c acc = true →
      ltmem c (get_uniqueAux cs acc) = true := by
  intro cs acc c h
  obtain ⟨t, ht, -⟩ := get_uniqueAux_grows cs acc
  rw [ht]
  unfold ltmem at *
  simp [List.any_append, h]

/-- Everything `get_unique` keeps comes from the input and is not
deleteable. -/
theorem get_uniqueAux_mem :
    ∀ (cs acc : List LTree) (c : LTree), c ∈ get_uniqueAux cs acc →
      c ∈ acc ∨ (c ∈ cs ∧ is_deleteable c = false) := by
  intro cs
  induction cs with
  | nil => intro acc c h; exact .inl (by simpa [get_uniqueAux] using h)
  | cons c0 cs ih =>
    intro acc c h
    simp only [get_uniqueAux] at h
    split at h
    · rcases ih acc c h with h' | ⟨h1, h2⟩
      · exact .inl h'
      · exact .inr ⟨List.mem_cons_of_mem _ h1, h2⟩
    split at h
    · rcases ih acc c h with h' | ⟨h1, h2⟩
      · exact .inl h'
      · exact .inr ⟨List.mem_cons_of_mem _ h1, h2⟩
    next hdel =>
      rcases ih (acc ++ [c0]) c h with h' | ⟨h1, h2⟩
      · rcases List.mem_append.mp h' with h'' | h''
        · exact .inl h''
        · have : c = c0 := by simpa using h''
          subst this
          exact .inr ⟨List.mem_cons_self _ _, by simpa using hdel⟩
      · exact .inr ⟨List.mem_cons_of_mem _ h1, h2⟩

/-- `get_unique` keeps no two structurally identical trees: a later kept
child is never `lteq`-equal to an earlier one. -/
theorem get_uniqueAux_pairwise :
    ∀ (cs acc : List LTree),
      List.Pairwise (fun a b => lteq b a = false) acc →
      List.Pairwise (fun a b => lteq b a = false) (get_uniqueAux cs acc) := by
  intro cs
  induction cs with
  | nil => intro acc h; simpa [get_uniqueAux] using h
  | cons c0 cs ih =>
    intro acc h
    simp only [get_uniqueAux]
    split
    · exact ih acc h
    split
    · exact ih acc h
    next hmem _ =>
      refine ih (acc ++ [c0]) ?_
      rw [List.pairwise_append]
      refine ⟨h, by simp, ?_⟩
      intro a ha b hb
      have hb' : b = c0 := by simpa using hb
      subst hb'
      unfold ltmem at hmem
      have := List.any_eq_false.mp (by simpa using hmem) a ha
      simpa using this

/-- Nothing that is not deleteable is lost: it stays present in the kept
set up to structural equality. -/
theorem get_uniqueAux_complete :
    ∀ (cs acc : List LTree) (c : LTree), c ∈ cs → is_deleteable c = false →
      ltmem c (get_uniqueAux cs acc) = true ∨ ltmem c acc = true := by
  intro cs
  induction cs with
  | nil => intro acc c h; exact absurd h (List.not_mem_nil c)
  | cons c0 cs ih =>
    intro acc c hc hdel
    simp only [get_uniqueAux]
    split
    next hmem =>
      rcases List.mem_cons.mp hc with h' | h'
      · subst h'; exact .inr hmem
      · exact ih acc c h' hdel
    split
    next hdel0 =>
      rcases List.mem_cons.mp hc with h' | h'
      · subst h'; exact absurd hdel0 (by simp [hdel])
      · exact ih acc c h' hdel
    · rcases List.mem_cons.mp hc with h' | h'
      · subst h'
        refine .inl (ltmem_of_ltmem_acc cs (acc ++ [c]) c ?_)
        unfold ltmem
        simp [List.any_append, lteq_refl]
      · rcases ih (acc ++ [c0]) c h' hdel with h'' | h''
        · exact .inl h''
        · refine .inl (ltmem_of_ltmem_acc cs (acc ++ [c0]) c ?_)
          exact h''

/-! ## Claim theorems -/

/-- C2: library, entity (module) and package lookup is case-insensitive:
for every project (resp. library), after adding a library / entity /
package named `nm`, looking the name up under any casing `s` with the
same lowercase form resolves to that same freshly added object. -/
theorem C2_case_insensitive_lookup :
    ∀ (nm s : String), pyLower s = pyLower nm →
      ((∀ (proj proj' : Project), add_library proj nm = .ok proj' →
          get_library proj' s = .ok (Library.mk nm [] [])) ∧
       (∀ (lib r : Library) (path : String) (gs : List GenericDecl) (ps : List PortDecl),
          addUnit lib path (.entity nm gs ps) = (.ok (), r) →
          ∃ m, get_module r s = some m ∧ m.name = nm ∧ r.modules = lib.modules ++ [m]) ∧
       (∀ (lib r : Library) (path : String) (gs : List GenericDecl) (items : List PkgItem),
          addUnit lib path (.packageDecl nm gs items) = (.ok (), r) →
          ∃ p, get_package r s = some p ∧ p.name = nm ∧
            r.packages = lib.packages ++ [p])) := by
  intro nm s hs
  refine ⟨?_, ?_, ?_⟩
  · intro proj proj' h
    unfold add_library at h
    split at h
    · simp at h
    next hany =>
      injection h with h'
      subst h'
      have hany' : proj.libraries.any (fun l => pyLower l.name == pyLower nm) = false := by
        simpa using hany
      unfold get_library
      rw [List.find?_append]
      have h1 : proj.libraries.find? (fun l => pyLower l.name == pyLower s) = none := by
        rw [List.find?_eq_none]
        intro l hl
        rw [hs]
        exact (List.any_eq_false.mp hany') l hl
      rw [h1]
      simp [List.find?, hs]
  · intro lib r path gs ps h
    simp only [addUnit] at h
    split at h
    · simp at h
    next heq =>
      split at h
      · simp at h
      next params heq2 =>
        split at h
        · simp at h
        next prts heq3 =>
          injection h with h1 h2
          subst h2
          exact ⟨_, get_module_append_new lib nm s _ hs rfl heq, rfl, rfl⟩
  · intro lib r path gs items h
    simp only [addUnit] at h
    split at h
    · simp at h
    next heq =>
      split at h
      · simp at h
      next params heq2 =>
        injection h with h1 h2
        subst h2
        exact ⟨_, get_package_append_new lib nm s _ hs rfl heq, rfl, rfl⟩

/-- C2 witness: `Foo` added, `fOO` looked up, at concrete inputs. -/
theorem C2_witness :
    pyLower "fOO" = pyLower "Foo" ∧
    get_library (Project.mk [Library.mk "Foo" [] []]) "fOO" = .ok (Library.mk "Foo" [] []) ∧
    (∃ m, get_module (Library.mk "work" [] [Module.mk "Foo" ["a.vhd"] "" [] []]) "fOO"
        = some m ∧ m.name = "Foo") ∧
    (∃ p, get_package
        (Library.mk "work" [.declared ⟨"Foo", ["a.vhd"], false, [], []⟩] []) "fOO"
        = some p ∧ p.name = "Foo") := by
  have h := C2_case_insensitive_lookup "Foo" "fOO" (by decide)
  refine ⟨by decide, h.1 (Project.mk []) _ rfl, ?_, ?_⟩
  · obtain ⟨m, hm, hn, _⟩ := h.2.1 (Library.mk "work" [] []) _ "a.vhd" [] [] rfl
    exact ⟨m, hm, hn⟩
  · obtain ⟨p, hp, hn, _⟩ := h.2.2 (Library.mk "work" [] []) _ "a.vhd" [] [] rfl
    exact ⟨p, hp, hn⟩

/-- C3: the claim says the `ArchitectureBody` branch adds the containing
file to the module's `files`, so that an entity file followed by an
architecture file leaves two files.  The source's branch calls only
`add_context` (a no-op) and `add_arch` (which sets `arch_name`) and never
touches `files`; folding `a.vhd` (entity `e`) then `b.vhd`
(`architecture rtl of e`) leaves `arch_name = "rtl"` but
`files = ["a.vhd"]` — one file, not two. -/
theorem C3_architecture_file_not_added :
    add_cst (add_cst (Library.mk "work" [] [])
        (DesignFileC.mk "a.vhd" [.entity "e" [] []])).2
        (DesignFileC.mk "b.vhd" [.architecture "rtl" "e"]) =
      (.ok (), Library.mk "work" [] [Module.mk "e" ["a.vhd"] "rtl" [] []]) := by
  rfl

/-- C7: a second architecture for an entity that already has one fails
with the architecture-exists error, and the failing call leaves the
library — in particular the module's `arch_name` and `files` — exactly
as it was. -/
theorem C7_second_architecture_fails :
    ∀ (lib : Library) (path archId entName : String) (m : Module),
      get_module lib entName = some m → m.arch_name ≠ "" →
      addUnit lib path (.architecture archId entName) =
        (.error (.archExists entName m.arch_name), lib) := by
  intro lib path archId entName m hm harch
  rw [addUnit_architecture, hm]
  simp [harch]

/-- C7 witness: module `e` with architecture `rtl`; a second architecture
`rtl2` fails and the library is untouched. -/
theorem C7_witness :
    get_module (Library.mk "work" [] [Module.mk "e" ["a.vhd"] "rtl" [] []]) "e"
      = some (Module.mk "e" ["a.vhd"] "rtl" [] []) ∧
    (Module.mk "e" ["a.vhd"] "rtl" [] []).arch_name ≠ "" ∧
    addUnit (Library.mk "work" [] [Module.mk "e" ["a.vhd"] "rtl" [] []]) "b.vhd"
        (.architecture "rtl2" "e") =
      (.error (.archExists "e" "rtl"), Library.mk "work" [] [Module.mk "e" ["a.vhd"] "rtl" [] []]) :=
  ⟨rfl, by decide,
    C7_second_architecture_fails (Library.mk "work" [] [Module.mk "e" ["a.vhd"] "rtl" [] []])
      "b.vhd" "rtl2" "e" (Module.mk "e" ["a.vhd"] "rtl" [] []) rfl (by decide)⟩

/-- When a unit fails, `addUnit` returns the library it was given. -/
theorem addUnit_error_unchanged :
    ∀ (lib : Library) (path : String) (lu : LibraryUnitC) (e : ProjErr),
      (addUnit lib path lu).1 = .error e → (addUnit lib path lu).2 = lib := by
  intro lib path lu e h
  rcases addUnit_ok_or_unchanged lib path lu with hok | hst
  · rw [h] at hok; exact absurd hok (by simp)
  · exact hst

/-- When the `add_cst` walk ends in an error, the final state is the
state reached by successfully folding a prefix of the units, with the
next unit the one that failed (leaving that state untouched). -/
theorem add_cst_units_error_decomp :
    ∀ (units : List LibraryUnitC) (lib : Library) (path : String) (e : ProjErr) (r : Library),
      add_cst_units lib path units = (.error e, r) →
      ∃ pre lu suf, units = pre ++ lu :: suf ∧
        add_cst_units lib path pre = (.ok (), r) ∧ addUnit r path lu = (.error e, r) := by
  intro units
  induction units with
  | nil => intro lib path e r h; simp [add_cst_units] at h
  | cons lu rest ih =>
    intro lib path e r h
    rw [show add_cst_units lib path (lu :: rest) =
        (match addUnit lib path lu with
         | (.ok (), lib') => add_cst_units lib' path rest
         | err => err) from rfl] at h
    cases ha : addUnit lib path lu with
    | mk a1 lib' =>
      rw [ha] at h
      cases a1 with
      | ok u =>
        cases u
        obtain ⟨pre, lu', suf, hsplit, hpre, herr⟩ := ih lib' path e r h
        refine ⟨lu :: pre, lu', suf, by rw [hsplit, List.cons_append], ?_, herr⟩
        rw [show add_cst_units lib path (lu :: pre) =
            (match addUnit lib path lu with
             | (.ok (), l) => add_cst_units l path pre
             | err => err) from rfl, ha]
        exact hpre
      | error e0 =>
        injection h with h1 h2
        have he : e0 = e := by injection h1
        subst he h2
        have hunch : lib' = lib := by
          have h' := addUnit_error_unchanged lib path lu e0 (by rw [ha])
          rw [ha] at h'
          exact h'
        subst hunch
        exact ⟨[], lu, rest, rfl, rfl, by rw [ha]⟩

/-- C8: `add_cst` is transactional per library unit: a unit that raises
any project error leaves the library's `modules` and `packages`
sequences and their contents exactly as they were before that unit was
processed — the error state of the whole walk is the state reached by
the successfully folded prefix of units, which the failing unit did not
touch.  (Every raise in the source happens before the branch's first
mutation of state reachable from the library; fresh objects are
appended only after all fallible steps.) -/
theorem C8_add_cst_transactional :
    (∀ (lib : Library) (path : String) (lu : LibraryUnitC) (e : ProjErr),
      (addUnit lib path lu).1 = .error e → (addUnit lib path lu).2 = lib) ∧
    (∀ (lib : Library) (df : DesignFileC) (e : ProjErr) (r : Library),
      add_cst lib df = (.error e, r) →
      ∃ pre lu suf, df.units = pre ++ lu :: suf ∧
        add_cst lib ⟨df.path, pre⟩ = (.ok (), r) ∧
        addUnit r df.path lu = (.error e, r)) :=
  ⟨addUnit_error_unchanged,
    fun lib df e r h => add_cst_units_error_decomp df.units lib df.path e r h⟩

/-- C8 witness: a file whose second unit is an architecture with no
entity — the walk fails after the first unit, and the state at failure
is exactly the library with the first unit's entity folded in. -/
theorem C8_witness :
    add_cst (Library.mk "work" [] [])
        (DesignFileC.mk "x.vhd" [.entity "e" [] [], .architecture "a" "ghost"]) =
      (.error (.noSuchEntity "ghost"),
        Library.mk "work" [] [Module.mk "e" ["x.vhd"] "" [] []]) ∧
    (∃ pre lu suf,
      ([.entity "e" [] [], .architecture "a" "ghost"] : List LibraryUnitC)
        = pre ++ lu :: suf ∧
      add_cst (Library.mk "work" [] []) ⟨"x.vhd", pre⟩ =
        (.ok (), Library.mk "work" [] [Module.mk "e" ["x.vhd"] "" [] []]) ∧
      addUnit (Library.mk "work" [] [Module.mk "e" ["x.vhd"] "" [] []]) "x.vhd" lu =
        (.error (.noSuchEntity "ghost"),
          Library.mk "work" [] [Module.mk "e" ["x.vhd"] "" [] []])) :=
  ⟨rfl,
    C8_add_cst_transactional.2 (Library.mk "work" [] [])
      (DesignFileC.mk "x.vhd" [.entity "e" [] [], .architecture "a" "ghost"])
      (.noSuchEntity "ghost")
      (Library.mk "work" [] [Module.mk "e" ["x.vhd"] "" [] []]) rfl⟩

/-- C10: when `uninstantiated_package_name` does not split on `.` into
exactly two parts, the `PackageInstantiationDeclaration` branch raises
the tuple-unpacking `ValueError` (not the no-such-package error) with the
library untouched; with exactly one dot, the part before the dot is
ignored and the base package is looked up only in the current library. -/
theorem C10_package_inst_split :
    ∀ (lib : Library) (path id uninst : String) (gm : List (Option String × String)),
      ((pySplitDot uninst).length ≠ 2 →
        addUnit lib path (.packageInst id uninst gm) =
          (.error (.unpackValueError (pySplitDot uninst).length), lib)) ∧
      (∀ a b, pySplitDot uninst = [a, b] →
        addUnit lib path (.packageInst id uninst gm) =
          (match get_package lib b with
           | none => (.error (.noSuchPackage uninst), lib)
           | some pk =>
             (.ok (), { lib with
                packages := lib.packages ++ [.instanced id [path] pk (mkMapping gm)] }))) := by
  intro lib path id uninst gm
  constructor
  · intro hlen
    rw [addUnit_packageInst]
    rcases hsp : pySplitDot uninst with _ | ⟨a, _ | ⟨b, _ | ⟨c, rest⟩⟩⟩
    · rfl
    · rfl
    · rw [hsp] at hlen; simp at hlen
    · rfl
  · intro a b hsp
    rw [addUnit_packageInst, hsp]

/-- C10 witness: `package q is new p` (no dot) raises the unpacking
error; `package q is new work.p` in a library without `p` raises the
no-such-package error carrying the full dotted name, showing the lookup
used only the part after the dot in the current library. -/
theorem C10_witness :
    addUnit (Library.mk "work" [] []) "f.vhd" (.packageInst "q" "p" []) =
      (.error (.unpackValueError (pySplitDot "p").length), Library.mk "work" [] []) ∧
    addUnit (Library.mk "work" [] []) "f.vhd" (.packageInst "q" "work.p" []) =
      (.error (.noSuchPackage "work.p"), Library.mk "work" [] []) := by
  constructor
  · exact (C10_package_inst_split (Library.mk "work" [] []) "f.vhd" "q" "p" []).1 (by decide)
  · have h := (C10_package_inst_split (Library.mk "work" [] []) "f.vhd" "q" "work.p" []).2
      "work" "p" (by decide)
    exact h.trans rfl

/-- C4: for each `_ambig` node the shaper discards deletable children,
de-duplicates structurally identical children (structural equality being
recursive on production name and children, ignoring attributes and
source positions), splices a sole remaining child in place of the
`_ambig`, discards the node when no children remain, and otherwise
leaves an `_ambig` carrying the reduced child set. -/
theorem C4_ambig_collapse :
    ∀ (cs : List LTree),
      ((get_unique cs).Sublist cs ∧
       (∀ c ∈ get_unique cs, is_deleteable c = false) ∧
       List.Pairwise (fun a b => lteq b a = false) (get_unique cs) ∧
       (∀ c ∈ cs, is_deleteable c = false → ltmem c (get_unique cs) = true)) ∧
      (∀ (v w : String) (p q : Nat), lteq (.token v p) (.token w q) = (v == w)) ∧
      (∀ (d d' : String) (b b' : Bool) (cs1 cs2 : List LTree),
        lteq (.node d b cs1) (.node d' b' cs2) = (d == d' && lteqs cs1 cs2)) ∧
      (get_unique cs = [] → ambig_handler cs = .ok none) ∧
      (∀ (d : String) (b : Bool) (ucs : List LTree),
        get_unique cs = [.node d b ucs] → ambig_handler cs = .ok (some (.node d false ucs))) ∧
      (∀ (u u2 : LTree) (us : List LTree), get_unique cs = u :: u2 :: us →
        ambig_handler cs = .ok (some (.node "_ambig" false (u :: u2 :: us)))) := by
  intro cs
  refine ⟨⟨?_, ?_, ?_, ?_⟩, fun _ _ _ _ => rfl, fun _ _ _ _ _ _ => rfl, ?_, ?_, ?_⟩
  · obtain ⟨t, ht, hsub⟩ := get_uniqueAux_grows cs []
    unfold get_unique
    rw [ht]
    simpa using hsub
  · intro c hc
    rcases get_uniqueAux_mem cs [] c hc with h | ⟨-, h⟩
    · exact absurd h (List.not_mem_nil c)
    · exact h
  · exact get_uniqueAux_pairwise cs [] (by simp)
  · intro c hc hdel
    rcases get_uniqueAux_complete cs [] c hc hdel with h | h
    · exact h
    · simp [ltmem] at h
  · intro h
    unfold ambig_handler
    rw [h]
  · intro d b ucs h
    unfold ambig_handler
    rw [h]
  · intro u u2 us h
    unfold ambig_handler
    rw [h]

/-- C4 witness: an `_ambig` over a deletable child, a kept child and its
structural duplicate (differing only in token position) collapses by
splicing the kept child. -/
theorem C4_witness :
    get_unique
        [LTree.node "a" true [], LTree.node "b" false [.token "x" 0],
         LTree.node "b" false [.token "x" 7]]
      = [LTree.node "b" false [.token "x" 0]] ∧
    ambig_handler
        [LTree.node "a" true [], LTree.node "b" false [.token "x" 0],
         LTree.node "b" false [.token "x" 7]]
      = .ok (some (LTree.node "b" false [.token "x" 0])) :=
  ⟨rfl,
    (C4_ambig_collapse
        [LTree.node "a" true [], LTree.node "b" false [.token "x" 0],
         LTree.node "b" false [.token "x" 7]]).2.2.2.2.1
      "b" false [.token "x" 0] rfl⟩

/-- C5: a `physical_literal` whose unit identifier is not in the closed
set of time units is removed (`Discard`ed) by the shaper and one whose
unit is in the set is kept unchanged; an `_ambig` with no viable
derivation left is itself discarded — the rejection that the pipeline
surfaces as a parse failure (surfacing modelled from the spec, see
`rejectedByShaper`).  The concrete conjuncts run the shaper on the
modelled forests of `10 xs` (rejected) and `10 ns` (kept). -/
theorem C5_physical_literal_filter :
    (∀ (d : String) (del : Bool) (cs : List LTree) (u : String) (p : Nat),
      cs.get? 1 = some (.token u p) → time_units.contains u = false →
      physical_literal_handler (.node d del cs) = .ok none) ∧
    (∀ (d : String) (del : Bool) (cs : List LTree) (u : String) (p : Nat),
      cs.get? 1 = some (.token u p) → time_units.contains u = true →
      physical_literal_handler (.node d del cs) = .ok (some (.node d del cs))) ∧
    (∀ cs : List LTree, get_unique cs = [] → ambig_handler cs = .ok none) ∧
    rejectedByShaper
      (.node "_ambig" false
        [.node "physical_literal" false
          [.node "abstract_literal" false [.token "10" 0], .token "xs" 1]]) ∧
    makeAmbigUnique
        (.node "physical_literal" false
          [.node "abstract_literal" false [.token "10" 0], .token "ns" 1])
      = .ok (some (.node "physical_literal" false
          [.node "abstract_literal" false [.token "10" 0], .token "ns" 1])) := by
  refine ⟨?_, ?_, ?_, .inl rfl, rfl⟩
  · intro d del cs u p h hu
    have hu' : u ∉ time_units := by simpa using hu
    simp only [physical_literal_handler]
    rw [h]
    simp [hu']
  · intro d del cs u p h hu
    have hu' : u ∈ time_units := by simpa using hu
    simp only [physical_literal_handler]
    rw [h]
    simp [hu']
  · intro cs h
    unfold ambig_handler
    rw [h]

/-- C5 witness: the handler at the literal `10 xs` (discarded) and
`10 ns` (kept), with the unit-set membership evaluated. -/
theorem C5_witness :
    time_units.contains "xs" = false ∧
    physical_literal_handler
        (.node "physical_literal" false
          [.node "abstract_literal" false [.token "10" 0], .token "xs" 1])
      = .ok none ∧
    time_units.contains "ns" = true ∧
    physical_literal_handler
        (.node "physical_literal" false
          [.node "abstract_literal" false [.token "10" 0], .token "ns" 1])
      = .ok (some (.node "physical_literal" false
          [.node "abstract_literal" false [.token "10" 0], .token "ns" 1])) :=
  ⟨by decide,
    C5_physical_literal_filter.1 "physical_literal" false
      [.node "abstract_literal" false [.token "10" 0], .token "xs" 1] "xs" 1 rfl (by decide),
    by decide,
    C5_physical_literal_filter.2.1 "physical_literal" false
      [.node "abstract_literal" false [.token "10" 0], .token "ns" 1] "ns" 1 rfl (by decide)⟩

/-- C6 counterexample: the modelled parse forest of `f(3)` — an `_ambig`
whose alternatives are the function-call reading and the slice reading —
collapses to the slice reading, not the function-call reading: the
shaper marks every `function_call` deletable (its known-function list is
the empty literal) and `get_unique` then drops it, so the claim that the
function-call reading is preferred (kept) is false. -/
theorem C6_counterexample :
    makeAmbigUnique
        (.node "_ambig" false
          [.node "function_call" false [.node "name" false [.token "f" 0], .token "3" 1],
           .node "slice_name" false [.node "name" false [.token "f" 0], .token "3" 1]])
      = .ok (some (.node "slice_name" false
          [.node "name" false [.token "f" 0], .token "3" 1])) := rfl

/-- C6 (amended): the shaper collapses the `_ambig` to a single
derivation, but the function-call reading is the one discarded, not
preferred: every `function_call` tree is marked deletable (the
known-function list is empty, so no name is ever found in it), and an
`_ambig` holding a deletable derivation next to a non-deletable one
splices the non-function-call derivation. -/
theorem C6_function_call_discarded :
    (∀ (d : String) (b : Bool) (cs : List LTree) (name : String),
      firstLeafValue cs = .ok name →
      function_call_handler (.node d b cs) = .ok (.node d true cs)) ∧
    (∀ (fc : LTree) (d' : String) (b' : Bool) (cs' : List LTree),
      is_deleteable fc = true → is_deleteable (.node d' b' cs') = false →
      ambig_handler [fc, .node d' b' cs'] = .ok (some (.node d' false cs'))) := by
  constructor
  · intro d b cs name h
    simp only [function_call_handler]
    rw [h]
    simp [known_functions]
  · intro fc d' b' cs' hfc halt
    have hgu : get_unique [fc, .node d' b' cs'] = [.node d' b' cs'] := by
      unfold get_unique get_uniqueAux
      simp [ltmem, hfc, halt, get_uniqueAux]
    unfold ambig_handler
    rw [hgu]

/-- C6 witness: the handler marks the concrete `f(3)` function-call tree
deletable, and the `_ambig` with the slice alternative keeps the
slice. -/
theorem C6_witness :
    function_call_handler
        (.node "function_call" false [.node "name" false [.token "f" 0], .token "3" 1])
      = .ok (.node "function_call" true [.node "name" false [.token "f" 0], .token "3" 1]) ∧
    ambig_handler
        [.node "function_call" true [.node "name" false [.token "f" 0], .token "3" 1],
         .node "slice_name" false [.node "name" false [.token "f" 0], .token "3" 1]]
      = .ok (some (.node "slice_name" false
          [.node "name" false [.token "f" 0], .token "3" 1])) :=
  ⟨C6_function_call_discarded.1 "function_call" false
      [.node "name" false [.token "f" 0], .token "3" 1] "f" rfl,
    C6_function_call_discarded.2
      (.node "function_call" true [.node "name" false [.token "f" 0], .token "3" 1])
      "slice_name" false [.node "name" false [.token "f" 0], .token "3" 1]
      rfl rfl⟩

/-- C9: after the parent-setting pass, every parent assignment is
consistent with `children()` — the assigned child is a member of its
parent's `children` and strictly smaller than its parent (so the parent
chain is acyclic); every non-root node occurrence (a nonempty child
path) is assigned its containing node as parent; and the root is never
assigned a parent — it is the one node left without one. -/
theorem C9_parent_consistency :
    (∀ (t c q : CTree), (c, q) ∈ addCstParent t →
      c ∈ cstChildren q ∧ csize c < csize q) ∧
    (∀ (t : CTree) (p : List Nat) (c : CTree), subtreeAt t p = some c → p ≠ [] →
      ∃ par, subtreeAt t p.dropLast = some par ∧ (c, par) ∈ addCstParent t) ∧
    (∀ (t q : CTree), (t, q) ∉ addCstParent t) := by
  refine ⟨?_, ?_, addCstParent_not_root⟩
  · intro t c q h
    have h' := addCstParent_sound (csize t) t c q le_rfl h
    exact ⟨h'.1, h'.2.1⟩
  · intro t p c h hne
    exact subtreeAt_parent p t c h hne

/-- C9 witness: a concrete two-level tree; the pass assigns the design
unit its containing design file as parent, the assignment is consistent
with `children()`, and the child occurrence at path `[0]` resolves to
that assignment. -/
theorem C9_witness :
    ((CTree.node "design_unit" [.tok "x"],
        CTree.node "design_file" [.node "design_unit" [.tok "x"], .nil])
      ∈ addCstParent (CTree.node "design_file" [.node "design_unit" [.tok "x"], .nil])) ∧
    (CTree.node "design_unit" [.tok "x"]
        ∈ cstChildren (CTree.node "design_file" [.node "design_unit" [.tok "x"], .nil]) ∧
      csize (CTree.node "design_unit" [.tok "x"])
        < csize (CTree.node "design_file" [.node "design_unit" [.tok "x"], .nil])) ∧
    (∃ par,
      subtreeAt (CTree.node "design_file" [.node "design_unit" [.tok "x"], .nil])
          ([0] : List Nat).dropLast = some par ∧
      (CTree.node "design_unit" [.tok "x"], par)
        ∈ addCstParent (CTree.node "design_file" [.node "design_unit" [.tok "x"], .nil])) := by
  have hmem : (CTree.node "design_unit" [.tok "x"],
      CTree.node "design_file" [.node "design_unit" [.tok "x"], .nil])
      ∈ addCstParent (CTree.node "design_file" [.node "design_unit" [.tok "x"], .nil]) :=
    List.mem_singleton.mpr rfl
  refine ⟨hmem, C9_parent_consistency.1 _ _ _ hmem, ?_⟩
  exact C9_parent_consistency.2.1
    (CTree.node "design_file" [.node "design_unit" [.tok "x"], .nil]) [0]
    (CTree.node "design_unit" [.tok "x"]) rfl (by simp)

end Hdltree
